import Mathlib

/-!
Verification of the read-modify-write reconciliation core of the
argocd-project-manager repository (Go), shallowly embedded in Lean 4.

The embedding follows `src/argocd/client.go` (record client and mutation
logic) and `src/handlers/destinations.go` (HTTP boundary: error mapping
and audit emission).  Machine state that the Go code only observes through
the external store (the record's destination list and its version token)
is made explicit; the store's own behaviour (JSON merge-patch application,
version check) is modelled from the specification where noted.
-/

namespace ArgoCD

/-- `Destination` from `src/argocd/client.go`: server, namespace, optional name. -/
structure Destination where
  server : String
  «namespace» : String
  name : String
deriving DecidableEq, Repr

/-- `destinationsEqual` from `src/argocd/client.go`: structural equality on
all three fields. -/
def destinationsEqual (a b : Destination) : Bool :=
  a.server == b.server && a.«namespace» == b.«namespace» && a.name == b.name

/-- The membership scan of `AddDestination` (`client.go` lines 109-113):
the loop over the fetched destinations returning early on a structural match. -/
def destinationPresent (fetched : List Destination) (dest : Destination) : Bool :=
  fetched.any (fun existing => destinationsEqual existing dest)

/-- The decision taken by `AddDestination` (`client.go` lines 101-120) between
the fetch and the patch: given the fetched destinations and the fetched
version token, either no patch is issued (`none`, the destination is already
present) or `patchDestinations` is called with the returned list and token. -/
def addDestinationStep {α : Type} (fetched : List Destination) (v : α)
    (dest : Destination) : Option (List Destination × α) :=
  if destinationPresent fetched dest then none
  else some (fetched ++ [dest], v)

/-- The filtering loop of `RemoveDestination` (`client.go` lines 131-139):
builds `newDestinations` keeping every element not structurally equal to
`dest`, in order, and tracks whether any element was dropped (`found`). -/
def removeLoop (fetched : List Destination) (dest : Destination) :
    List Destination × Bool :=
  match fetched with
  | [] => ([], false)
  | existing :: rest =>
    let tail := removeLoop rest dest
    if destinationsEqual existing dest then (tail.1, true)
    else (existing :: tail.1, tail.2)

/-- The decision taken by `RemoveDestination` (`client.go` lines 123-148):
either no patch is issued (`none`, nothing matched) or `patchDestinations`
is called with the filtered list and the fetched version token. -/
def removeDestinationStep {α : Type} (fetched : List Destination) (v : α)
    (dest : Destination) : Option (List Destination × α) :=
  let r := removeLoop fetched dest
  if r.2 then some (r.1, v) else none

/-- The observable state of one AppProject record in the external store:
its destination list and an abstract version token that the store bumps on
every committed write. -/
structure ProjState where
  dests : List Destination
  version : Nat
deriving DecidableEq, Repr

/-- One full `AddDestination` invocation against store state `s` (fetch,
compare, conditionally patch), assuming no concurrent interference so the
conditional patch commits.  Returns the new store state and whether a write
was performed. -/
def applyAdd (s : ProjState) (dest : Destination) : ProjState × Bool :=
  match addDestinationStep s.dests s.version dest with
  | none => (s, false)
  | some (newDests, _) => (⟨newDests, s.version + 1⟩, true)

/-- One full `RemoveDestination` invocation against store state `s`,
assuming no concurrent interference. -/
def applyRemove (s : ProjState) (dest : Destination) : ProjState × Bool :=
  match removeDestinationStep s.dests s.version dest with
  | none => (s, false)
  | some (newDests, _) => (⟨newDests, s.version + 1⟩, true)

/-- `n` repetitions of the same Add call; returns the final state and the
total number of writes performed. -/
def iterAdd : Nat → ProjState → Destination → ProjState × Nat
  | 0, s, _ => (s, 0)
  | n + 1, s, d =>
    let r := applyAdd s d
    let rest := iterAdd n r.1 d
    (rest.1, (if r.2 then 1 else 0) + rest.2)

/-- `n` repetitions of the same Remove call; returns the final state and the
total number of writes performed. -/
def iterRemove : Nat → ProjState → Destination → ProjState × Nat
  | 0, s, _ => (s, 0)
  | n + 1, s, d =>
    let r := applyRemove s d
    let rest := iterRemove n r.1 d
    (rest.1, (if r.2 then 1 else 0) + rest.2)

-- Basic facts about the remove loop and presence scan.

theorem removeLoop_eq_filter_any (fetched : List Destination) (d : Destination) :
    removeLoop fetched d =
      (fetched.filter (fun e => !destinationsEqual e d),
       fetched.any (fun e => destinationsEqual e d)) := by
  induction fetched with
  | nil => rfl
  | cons x xs ih =>
    simp only [removeLoop, ih, List.filter_cons, List.any_cons]
    by_cases h : destinationsEqual x d
    · simp [h]
    · simp [h]

theorem destinationPresent_append_self (l : List Destination) (d : Destination) :
    destinationPresent (l ++ [d]) d = true := by
  simp [destinationPresent, List.any_append, destinationsEqual]

theorem destinationPresent_filter_not (l : List Destination) (d : Destination) :
    destinationPresent (l.filter (fun e => !destinationsEqual e d)) d = false := by
  rw [Bool.eq_false_iff]
  intro hAny
  simp only [destinationPresent, List.any_eq_true] at hAny
  obtain ⟨e, he, hEq⟩ := hAny
  rw [List.mem_filter] at he
  rw [hEq] at he
  simp at he

/-- If the destination is present, one Add call is a pure no-op on the state. -/
theorem applyAdd_of_present (s : ProjState) (d : Destination)
    (h : destinationPresent s.dests d = true) :
    applyAdd s d = (s, false) := by
  simp [applyAdd, addDestinationStep, h]

/-- If the destination is absent, one Remove call is a pure no-op on the state. -/
theorem applyRemove_of_absent (s : ProjState) (d : Destination)
    (h : destinationPresent s.dests d = false) :
    applyRemove s d = (s, false) := by
  have : removeLoop s.dests d =
      (s.dests.filter (fun e => !destinationsEqual e d), false) := by
    rw [removeLoop_eq_filter_any]
    simpa [destinationPresent] using h
  simp [applyRemove, removeDestinationStep, this]

/-- After any Add of `d`, `d` is present in the resulting state. -/
theorem present_after_applyAdd (s : ProjState) (d : Destination) :
    destinationPresent (applyAdd s d).1.dests d = true := by
  unfold applyAdd addDestinationStep
  by_cases h : destinationPresent s.dests d
  · simp [h]
  · simp only [h, Bool.false_eq_true, if_false]
    exact destinationPresent_append_self s.dests d

/-- After any Remove of `d`, `d` is absent from the resulting state. -/
theorem absent_after_applyRemove (s : ProjState) (d : Destination) :
    destinationPresent (applyRemove s d).1.dests d = false := by
  unfold applyRemove removeDestinationStep
  rw [removeLoop_eq_filter_any]
  by_cases h : destinationPresent s.dests d
  · have hv : s.dests.any (fun e => destinationsEqual e d) = true := h
    simp only [hv, if_true]
    exact destinationPresent_filter_not s.dests d
  · have hv : s.dests.any (fun e => destinationsEqual e d) = false := by
      simpa [destinationPresent] using h
    simpa [hv] using h

/-- A state in which Add of `d` is a no-op stays fixed under any number of
further identical Add calls, with zero writes. -/
theorem iterAdd_fixed (n : Nat) (s : ProjState) (d : Destination)
    (h : destinationPresent s.dests d = true) :
    iterAdd n s d = (s, 0) := by
  induction n with
  | zero => rfl
  | succ k ih =>
    simp [iterAdd, applyAdd_of_present s d h, ih]

/-- A state in which Remove of `d` is a no-op stays fixed under any number of
further identical Remove calls, with zero writes. -/
theorem iterRemove_fixed (n : Nat) (s : ProjState) (d : Destination)
    (h : destinationPresent s.dests d = false) :
    iterRemove n s d = (s, 0) := by
  induction n with
  | zero => rfl
  | succ k ih =>
    simp [iterRemove, applyRemove_of_absent s d h, ih]

/-!
## Raw record representation

The Go code reads AppProjects through `unstructured.Unstructured`, i.e. a
JSON-like tree of `map[string]interface{}`, `[]interface{}` and scalars.
`JValue` embeds that tree; objects are association lists (keys unique in any
payload produced by JSON decoding, lookup takes the first match).
-/

/-- A JSON-like value, embedding `interface{}` payloads from the dynamic
Kubernetes client. -/
inductive JValue where
  | str : String → JValue
  | num : Int → JValue
  | boolean : Bool → JValue
  | null : JValue
  | arr : List JValue → JValue
  | obj : List (String × JValue) → JValue
deriving Repr

/-- First-match lookup of a key in an object's field list (Go map access). -/
def lookupKey : List (String × JValue) → String → Option JValue
  | [], _ => none
  | (k', v') :: rest, k => if k' = k then some v' else lookupKey rest k

/-- Result of `unstructured.NestedMap` / `NestedSlice`: the field may be
present with the right shape, absent, or present with the wrong type (Go
returns an error in the last case). -/
inductive NestedRes (α : Type) where
  | found : α → NestedRes α
  | absent : NestedRes α
  | typeErr : NestedRes α
deriving Repr

/-- `unstructured.NestedMap(o, k)`: absent if missing, error if the value is
not an object. -/
def nestedMap (o : List (String × JValue)) (k : String) :
    NestedRes (List (String × JValue)) :=
  match lookupKey o k with
  | none => .absent
  | some (.obj m) => .found m
  | some _ => .typeErr

/-- `unstructured.NestedSlice(o, k)`: absent if missing, error if the value is
not a list. -/
def nestedSlice (o : List (String × JValue)) (k : String) :
    NestedRes (List JValue) :=
  match lookupKey o k with
  | none => .absent
  | some (.arr l) => .found l
  | some _ => .typeErr

/-- A Go slice: `none` is the nil slice, `some l` a non-nil slice with
elements `l`.  Go distinguishes the two when comparing against `nil` and when
serializing to JSON (`null` vs `[]`). -/
def GoSlice (α : Type) : Type := Option (List α)

/-- Go `append` on a possibly-nil slice. -/
def goAppend {α : Type} (s : GoSlice α) (a : α) : GoSlice α :=
  match s with
  | none => some [a]
  | some l => some (l ++ [a])

/-- The elements of a Go slice (nil has none). -/
def goElems {α : Type} (s : GoSlice α) : List α :=
  match s with
  | none => []
  | some l => l

/-- The Go string type assertion `v.(string)`: the string when `v` is a
string, the zero value otherwise. -/
def asString (v : Option JValue) : String :=
  match v with
  | some (.str s) => s
  | _ => ""

/-- The element branch of `extractDestinations` (`client.go` lines 197-213):
a well-formed element is an object; its `server`, `namespace` and `name`
fields are taken when they are strings and default to `""` otherwise.
Non-object elements yield `none` (skipped by the loop). -/
def objDest (v : JValue) : Option Destination :=
  match v with
  | .obj m =>
    some { server := asString (lookupKey m "server"),
           «namespace» := asString (lookupKey m "namespace"),
           name := asString (lookupKey m "name") }
  | _ => none

/-- The accumulation loop of `extractDestinations`: starts from the nil slice
`var destinations []Destination` and appends one destination per well-formed
element. -/
def extractLoop (acc : GoSlice Destination) : List JValue → GoSlice Destination
  | [] => acc
  | v :: rest =>
    match objDest v with
    | some d => extractLoop (goAppend acc d) rest
    | none => extractLoop acc rest

/-- `extractDestinations` (`client.go` lines 179-217) on the raw record
object: a missing `spec` or a missing `spec.destinations` yields the empty
(non-nil) slice; a `spec` that is not an object, or a `destinations` field
that is not a list, is an error; otherwise the element loop runs. -/
def extractDestinations (o : List (String × JValue)) :
    Except String (GoSlice Destination) :=
  match nestedMap o "spec" with
  | .typeErr => .error "failed to get spec"
  | .absent => .ok (some [])
  | .found spec =>
    match nestedSlice spec "destinations" with
    | .typeErr => .error "failed to get destinations"
    | .absent => .ok (some [])
    | .found raw => .ok (extractLoop none raw)

/-- `Project` from `src/argocd/client.go`: name, destination count and
destination list as serialized to the API response. -/
structure Project where
  name : String
  destinationCount : Nat
  destinations : GoSlice Destination

/-- A fetched AppProject item as `ListProjects` sees it: its name and its raw
object. -/
structure RawItem where
  name : String
  object : List (String × JValue)

/-- The per-item body of `ListProjects` (`client.go` lines 68-79): the
extraction error is discarded, a nil destinations slice is replaced by the
empty slice, and the count is the length of the resulting slice. -/
def projectOfItem (item : RawItem) : Project :=
  let destinations0 : GoSlice Destination :=
    match extractDestinations item.object with
    | .error _ => none
    | .ok s => s
  let destinations :=
    match destinations0 with
    | none => some ([] : List Destination)
    | some l => some l
  { name := item.name,
    destinationCount := (goElems destinations).length,
    destinations := destinations }

/-- `ListProjects` (`client.go` lines 61-82) over a successfully listed set of
items. -/
def listProjects (items : List RawItem) : List Project :=
  items.map projectOfItem

theorem extractLoop_eq_filterMap (raw : List JValue) (acc : GoSlice Destination) :
    goElems (extractLoop acc raw) = goElems acc ++ raw.filterMap objDest := by
  induction raw generalizing acc with
  | nil => simp [extractLoop]
  | cons v rest ih =>
    simp only [extractLoop, List.filterMap_cons]
    cases hv : objDest v with
    | none => simp [ih]
    | some d =>
      rw [ih]
      cases acc <;> simp [goAppend, goElems]

/-!
## The conditional patch

`patchDestinations` (`client.go` lines 151-176) marshals a two-level patch
object and submits it with `types.MergePatchType`, i.e. RFC 7386 JSON merge
patch semantics applied by the API server.  The merge-patch application and
the server's resourceVersion check are modelled here; the patch construction
and the JSON serialization of `[]Destination` follow the Go code.
-/

/-- Replace the first binding of `k` (keeping its position), or append. -/
def setKey : List (String × JValue) → String → JValue → List (String × JValue)
  | [], k, v => [(k, v)]
  | (k', v') :: rest, k, v =>
    if k' = k then (k, v) :: rest else (k', v') :: setKey rest k v

/-- Remove every binding of `k`. -/
def eraseKey : List (String × JValue) → String → List (String × JValue)
  | [], _ => []
  | (k', v') :: rest, k =>
    if k' = k then eraseKey rest k else (k', v') :: eraseKey rest k

/-- The field list of an object value (`[]` for non-objects). -/
def objFields : JValue → List (String × JValue)
  | .obj f => f
  | _ => []

mutual

/-- Modelled from the spec: RFC 7386 JSON merge patch, the semantics the
store applies to a `types.MergePatchType` request — an object patch merges
key by key (null deletes), any non-object patch value replaces the target
value wholesale. -/
def mergePatch (t : JValue) (p : JValue) : JValue :=
  match p with
  | .obj pf => .obj (mergeFields (objFields t) pf)
  | _ => p

/-- Key-by-key merge of an object patch's field list into a target field
list. -/
def mergeFields (tf : List (String × JValue)) :
    List (String × JValue) → List (String × JValue)
  | [] => tf
  | (k, .null) :: rest => mergeFields (eraseKey tf k) rest
  | (k, v) :: rest =>
    mergeFields (setKey tf k (mergePatch ((lookupKey tf k).getD .null) v)) rest

end

/-- JSON serialization of one `Destination` (struct tags in `client.go`:
`name` carries `omitempty`, so an empty name is dropped). -/
def destToJson (d : Destination) : JValue :=
  .obj (("server", .str d.server) :: ("namespace", .str d.«namespace») ::
    (if d.name = "" then [] else [("name", .str d.name)]))

/-- JSON serialization of a `[]Destination` value: the nil slice marshals to
`null`, any other slice to an array. -/
def sliceToJson (s : GoSlice Destination) : JValue :=
  match s with
  | none => .null
  | some l => .arr (l.map destToJson)

/-- The patch object built by `patchDestinations` (`client.go` lines
153-160): exactly `metadata.resourceVersion` and `spec.destinations`. -/
def patchValue (destinations : GoSlice Destination) (resourceVersion : String) :
    JValue :=
  .obj [("metadata", .obj [("resourceVersion", .str resourceVersion)]),
        ("spec", .obj [("destinations", sliceToJson destinations)])]

/-- The version token a merge patch asserts, when it carries one:
`metadata.resourceVersion` as a string. -/
def patchAssertedVersion (p : JValue) : Option String :=
  match p with
  | .obj pf =>
    match lookupKey pf "metadata" with
    | some (.obj mf) =>
      match lookupKey mf "resourceVersion" with
      | some (.str v) => some v
      | _ => none
    | _ => none
  | _ => none

/-- Modelled from the spec: the store's `conditionalUpdate` — when the patch
asserts a version token, the store applies the merge patch only if that token
equals the record's current one and otherwise rejects with a conflict
(`none`); a patch asserting no token applies unconditionally. -/
def conditionalUpdate (current : String) (r : JValue) (p : JValue) :
    Option JValue :=
  match patchAssertedVersion p with
  | some v => if v = current then some (mergePatch r p) else none
  | none => some (mergePatch r p)

theorem lookupKey_setKey_same (tf : List (String × JValue)) (k : String)
    (v : JValue) : lookupKey (setKey tf k v) k = some v := by
  induction tf with
  | nil => simp [setKey, lookupKey]
  | cons hd rest ih =>
    obtain ⟨k', v'⟩ := hd
    by_cases h : k' = k
    · simp [setKey, lookupKey, h]
    · simp [setKey, lookupKey, h, ih]

theorem lookupKey_setKey_other (tf : List (String × JValue)) (k k' : String)
    (v : JValue) (h : k' ≠ k) :
    lookupKey (setKey tf k v) k' = lookupKey tf k' := by
  induction tf with
  | nil => simp [setKey, lookupKey, Ne.symm h]
  | cons hd rest ih =>
    obtain ⟨k0, v0⟩ := hd
    by_cases h0 : k0 = k
    · subst h0
      simp [setKey, lookupKey, Ne.symm h]
    · simp only [setKey, h0, if_false, lookupKey]
      by_cases h1 : k0 = k'
      · simp [h1]
      · simp [h1, ih]

theorem lookupKey_eraseKey_same (tf : List (String × JValue)) (k : String) :
    lookupKey (eraseKey tf k) k = none := by
  induction tf with
  | nil => simp [eraseKey, lookupKey]
  | cons hd rest ih =>
    obtain ⟨k0, v0⟩ := hd
    by_cases h0 : k0 = k
    · simp [eraseKey, h0, ih]
    · simp [eraseKey, h0, lookupKey, ih]

theorem lookupKey_eraseKey_other (tf : List (String × JValue)) (k k' : String)
    (h : k' ≠ k) : lookupKey (eraseKey tf k) k' = lookupKey tf k' := by
  induction tf with
  | nil => simp [eraseKey]
  | cons hd rest ih =>
    obtain ⟨k0, v0⟩ := hd
    by_cases h0 : k0 = k
    · subst h0
      simp [eraseKey, lookupKey, Ne.symm h, ih]
    · simp only [eraseKey, h0, if_false, lookupKey]
      by_cases h1 : k0 = k'
      · simp [h1]
      · simp [h1, ih]

/-- Nested two-level lookup in a JSON value. -/
def lookup2 (v : JValue) (k1 k2 : String) : Option JValue :=
  match lookupKey (objFields v) k1 with
  | some inner => lookupKey (objFields inner) k2
  | none => none

theorem mergePatch_patchValue_some (r : JValue) (l : List Destination)
    (rv : String) :
    mergePatch r (patchValue (some l) rv) =
      JValue.obj (setKey
        (setKey (objFields r) "metadata"
          (JValue.obj (setKey
            (objFields ((lookupKey (objFields r) "metadata").getD JValue.null))
            "resourceVersion" (JValue.str rv))))
        "spec"
        (JValue.obj (setKey
          (objFields ((lookupKey (objFields r) "spec").getD JValue.null))
          "destinations" (JValue.arr (l.map destToJson))))) := by
  have e1 : mergePatch r (patchValue (some l) rv) =
      JValue.obj (mergeFields
        (setKey (objFields r) "metadata"
          (JValue.obj (setKey
            (objFields ((lookupKey (objFields r) "metadata").getD JValue.null))
            "resourceVersion" (JValue.str rv))))
        [("spec", JValue.obj [("destinations", JValue.arr (l.map destToJson))])]) :=
    rfl
  have e3 : ∀ tf1 : List (String × JValue),
      mergeFields tf1
        [("spec", JValue.obj [("destinations", JValue.arr (l.map destToJson))])] =
      setKey tf1 "spec"
        (JValue.obj (setKey
          (objFields ((lookupKey tf1 "spec").getD JValue.null))
          "destinations" (JValue.arr (l.map destToJson)))) :=
    fun _ => rfl
  rw [e1, e3, lookupKey_setKey_other _ _ _ _ (by decide)]

theorem mergePatch_patchValue_none (r : JValue) (rv : String) :
    mergePatch r (patchValue none rv) =
      JValue.obj (setKey
        (setKey (objFields r) "metadata"
          (JValue.obj (setKey
            (objFields ((lookupKey (objFields r) "metadata").getD JValue.null))
            "resourceVersion" (JValue.str rv))))
        "spec"
        (JValue.obj (eraseKey
          (objFields ((lookupKey (objFields r) "spec").getD JValue.null))
          "destinations"))) := by
  have e1 : mergePatch r (patchValue none rv) =
      JValue.obj (mergeFields
        (setKey (objFields r) "metadata"
          (JValue.obj (setKey
            (objFields ((lookupKey (objFields r) "metadata").getD JValue.null))
            "resourceVersion" (JValue.str rv))))
        [("spec", JValue.obj [("destinations", JValue.null)])]) :=
    rfl
  have e3 : ∀ tf1 : List (String × JValue),
      mergeFields tf1 [("spec", JValue.obj [("destinations", JValue.null)])] =
      setKey tf1 "spec"
        (JValue.obj (eraseKey
          (objFields ((lookupKey tf1 "spec").getD JValue.null))
          "destinations")) :=
    fun _ => rfl
  rw [e1, e3, lookupKey_setKey_other _ _ _ _ (by decide)]

/-- After the patch, `spec.destinations` holds exactly the serialized new
slice — the old value of the field plays no role (full overwrite, and
deletion when the new slice is nil). -/
theorem patched_destinations (r : JValue) (s : GoSlice Destination)
    (rv : String) :
    lookup2 (mergePatch r (patchValue s rv)) "spec" "destinations" =
      match s with
      | some l => some (JValue.arr (l.map destToJson))
      | none => none := by
  cases s with
  | some l =>
    rw [mergePatch_patchValue_some]
    simp [lookup2, objFields, lookupKey_setKey_same]
  | none =>
    rw [mergePatch_patchValue_none]
    simp [lookup2, objFields, lookupKey_setKey_same, lookupKey_eraseKey_same]

/-- After the patch, `metadata.resourceVersion` holds the expected token. -/
theorem patched_resourceVersion (r : JValue) (s : GoSlice Destination)
    (rv : String) :
    lookup2 (mergePatch r (patchValue s rv)) "metadata" "resourceVersion" =
      some (JValue.str rv) := by
  cases s with
  | some l =>
    rw [mergePatch_patchValue_some]
    simp only [lookup2, objFields]
    rw [lookupKey_setKey_other _ _ _ _ (by decide), lookupKey_setKey_same]
    simp [objFields, lookupKey_setKey_same]
  | none =>
    rw [mergePatch_patchValue_none]
    simp only [lookup2, objFields]
    rw [lookupKey_setKey_other _ _ _ _ (by decide), lookupKey_setKey_same]
    simp [objFields, lookupKey_setKey_same]

/-- Frame: every top-level field other than `metadata` and `spec` is
untouched by the patch. -/
theorem patched_frame_top (r : JValue) (s : GoSlice Destination) (rv : String)
    (k : String) (hm : k ≠ "metadata") (hs : k ≠ "spec") :
    lookupKey (objFields (mergePatch r (patchValue s rv))) k =
      lookupKey (objFields r) k := by
  cases s with
  | some l =>
    rw [mergePatch_patchValue_some]
    simp only [objFields]
    rw [lookupKey_setKey_other _ _ _ _ hs, lookupKey_setKey_other _ _ _ _ hm]
  | none =>
    rw [mergePatch_patchValue_none]
    simp only [objFields]
    rw [lookupKey_setKey_other _ _ _ _ hs, lookupKey_setKey_other _ _ _ _ hm]

/-- Frame: inside `spec`, every field other than `destinations` is
untouched. -/
theorem patched_frame_spec (r : JValue) (s : GoSlice Destination) (rv : String)
    (k : String) (hk : k ≠ "destinations") :
    lookup2 (mergePatch r (patchValue s rv)) "spec" k =
      lookupKey (objFields ((lookupKey (objFields r) "spec").getD JValue.null)) k := by
  cases s with
  | some l =>
    rw [mergePatch_patchValue_some]
    simp only [lookup2, objFields]
    rw [lookupKey_setKey_same]
    simp only [objFields]
    rw [lookupKey_setKey_other _ _ _ _ hk]
  | none =>
    rw [mergePatch_patchValue_none]
    simp only [lookup2, objFields]
    rw [lookupKey_setKey_same]
    simp only [objFields]
    rw [lookupKey_eraseKey_other _ _ _ hk]

/-- Frame: inside `metadata`, every field other than `resourceVersion` is
untouched. -/
theorem patched_frame_metadata (r : JValue) (s : GoSlice Destination)
    (rv : String) (k : String) (hk : k ≠ "resourceVersion") :
    lookup2 (mergePatch r (patchValue s rv)) "metadata" k =
      lookupKey (objFields ((lookupKey (objFields r) "metadata").getD JValue.null)) k := by
  cases s with
  | some l =>
    rw [mergePatch_patchValue_some]
    simp only [lookup2, objFields]
    rw [lookupKey_setKey_other _ _ _ _ (by decide), lookupKey_setKey_same]
    simp only [objFields]
    rw [lookupKey_setKey_other _ _ _ _ hk]
  | none =>
    rw [mergePatch_patchValue_none]
    simp only [lookup2, objFields]
    rw [lookupKey_setKey_other _ _ _ _ (by decide), lookupKey_setKey_same]
    simp only [objFields]
    rw [lookupKey_setKey_other _ _ _ _ hk]

/-- The patch asserts exactly the fetched version token. -/
theorem patchValue_asserts_version (s : GoSlice Destination) (rv : String) :
    patchAssertedVersion (patchValue s rv) = some rv := rfl

/-!
## Error classification and the handler boundary

`src/handlers/destinations.go`.  Errors reaching the handlers from the
Kubernetes client are classified only through `errors.IsConflict`,
`errors.IsNotFound` and `errors.IsForbidden`; every other error — transport
failures and context cancellation alike — falls through to the generic
branch.
-/

/-- The kinds of error the store/transport layer can surface to the core,
per the spec's taxonomy (the Go code carries them as opaque `error` values). -/
inductive K8sErr where
  | notFound
  | forbidden
  | conflict
  | cancelled
  | transient
deriving DecidableEq, Repr

/-- `errors.IsNotFound`: true only for a store-reported not-found. -/
def isNotFound : K8sErr → Bool
  | .notFound => true
  | _ => false

/-- `errors.IsForbidden`: true only for a store-reported forbidden. -/
def isForbidden : K8sErr → Bool
  | .forbidden => true
  | _ => false

/-- `errors.IsConflict`: true only for a store-reported version conflict. -/
def isConflict : K8sErr → Bool
  | .conflict => true
  | _ => false

/-- `handleK8sError` (`destinations.go` lines 225-238): the HTTP status
written for an error that is not handled as a conflict. -/
def handleK8sErrorStatus (e : K8sErr) : Nat :=
  if isNotFound e then 404
  else if isForbidden e then 403
  else 500

/-- The fields of `audit.Entry` as the handlers populate it. -/
structure Entry where
  action : String
  project : String
  server : String
  «namespace» : String
  name : String
  description : String
  userAgent : String
  remoteAddr : String
deriving DecidableEq, Repr

/-- The body of a validated add/remove request (`DestinationRequest`). -/
structure DestinationRequest where
  server : String
  «namespace» : String
  name : String
  description : String
deriving DecidableEq, Repr

/-- The return value of the Go `AddDestination` (`client.go` lines 101-120):
a fetch error propagates; an already-present destination returns `nil`
without patching; otherwise the patch's own result is returned (`nil` on
acceptance).  `patch` is the store's response to the issued conditional
patch. -/
def addDestinationGo (fetchRes : Except K8sErr (List Destination × String))
    (dest : Destination) (patch : List Destination → String → Option K8sErr) :
    Option K8sErr :=
  match fetchRes with
  | .error e => some e
  | .ok (fetched, v) =>
    match addDestinationStep fetched v dest with
    | none => none
    | some (newDests, ver) => patch newDests ver

/-- The return value of the Go `RemoveDestination` (`client.go` lines
123-148). -/
def removeDestinationGo (fetchRes : Except K8sErr (List Destination × String))
    (dest : Destination) (patch : List Destination → String → Option K8sErr) :
    Option K8sErr :=
  match fetchRes with
  | .error e => some e
  | .ok (fetched, v) =>
    match removeDestinationStep fetched v dest with
    | none => none
    | some (newDests, ver) => patch newDests ver

/-- The handler logic of `AddDestination` (`destinations.go` lines 95-123)
after the core call returns: the HTTP status written and the audit entry
passed to the audit logger, if any. -/
def handlerAddAfterCore (project : String) (req : DestinationRequest)
    (userAgent remoteAddr : String) (coreRes : Option K8sErr) :
    Nat × Option Entry :=
  match coreRes with
  | some e => (if isConflict e then 409 else handleK8sErrorStatus e, none)
  | none =>
    (201, some ⟨"add", project, req.server, req.«namespace», req.name,
      req.description, userAgent, remoteAddr⟩)

/-- The handler logic of `RemoveDestination` (`destinations.go` lines
149-177) after the core call returns. -/
def handlerRemoveAfterCore (project : String) (req : DestinationRequest)
    (userAgent remoteAddr : String) (coreRes : Option K8sErr) :
    Nat × Option Entry :=
  match coreRes with
  | some e => (if isConflict e then 409 else handleK8sErrorStatus e, none)
  | none =>
    (204, some ⟨"remove", project, req.server, req.«namespace», req.name,
      req.description, userAgent, remoteAddr⟩)

/-!
## Sample data for witnesses and counterexamples
-/

/-- Sample destination (spec example: server "a", namespace "ns1"). -/
def dA : Destination := ⟨"a", "ns1", ""⟩

/-- Sample destination (spec example: server "b", namespace "ns2"). -/
def dB : Destination := ⟨"b", "ns2", ""⟩

/-- Sample validated request carrying `dA`'s fields and a justification. -/
def reqA : DestinationRequest := ⟨"a", "ns1", "", "adding cluster a"⟩

/-- Sample raw AppProject record with metadata, spec and status fields. -/
def rSample : JValue :=
  .obj [("metadata", .obj [("name", .str "proj"), ("resourceVersion", .str "v1")]),
        ("spec", .obj [("sourceRepos", .arr [.str "repoX"]),
                       ("destinations", .arr [.str "old-garbage"])]),
        ("status", .obj [("jwtTokensByRole", .obj [])])]

/-- Sample fetched item whose destinations field is malformed (a string). -/
def itemBad : RawItem :=
  ⟨"p1", [("spec", JValue.obj [("destinations", JValue.str "bad")])]⟩

/-!
## Claims
-/

/-- C1: if the destination is structurally equal to a fetched element,
`AddDestination` returns successfully (nil) without calling
`ConditionalPatch`; and after the first Add (resp. Remove) call on any
state, any number of repetitions of the same call performs zero writes and
leaves the state — hence the destination set — unchanged. -/
theorem claim_C1_idempotent_no_spurious_write (fetched : List Destination)
    (v : String) (d : Destination) (s : ProjState) (n : Nat)
    (h : ∃ e ∈ fetched, destinationsEqual e d = true) :
    (∀ patch, addDestinationGo (.ok (fetched, v)) d patch = none) ∧
    addDestinationStep fetched v d = none ∧
    iterAdd n (applyAdd s d).1 d = ((applyAdd s d).1, 0) ∧
    iterRemove n (applyRemove s d).1 d = ((applyRemove s d).1, 0) := by
  have hp : destinationPresent fetched d = true := by
    simp only [destinationPresent, List.any_eq_true]
    exact h
  refine ⟨?_, ?_, ?_, ?_⟩
  · intro patch
    simp [addDestinationGo, addDestinationStep, hp]
  · simp [addDestinationStep, hp]
  · exact iterAdd_fixed n _ d (present_after_applyAdd s d)
  · exact iterRemove_fixed n _ d (absent_after_applyRemove s d)

theorem claim_C1_witness :
    (∃ e ∈ [dA], destinationsEqual e dA = true) ∧
    ((∀ patch, addDestinationGo (.ok ([dA], "v1")) dA patch = none) ∧
     addDestinationStep [dA] "v1" dA = none ∧
     iterAdd 3 (applyAdd ⟨[dA], 0⟩ dA).1 dA = ((applyAdd ⟨[dA], 0⟩ dA).1, 0) ∧
     iterRemove 3 (applyRemove ⟨[dA], 0⟩ dA).1 dA =
       ((applyRemove ⟨[dA], 0⟩ dA).1, 0)) :=
  ⟨by decide,
   claim_C1_idempotent_no_spurious_write [dA] "v1" dA ⟨[dA], 0⟩ 3 (by decide)⟩

/-- C2: `RemoveDestination` computes exactly the order-preserving
subsequence of fetched elements not structurally equal to the destination;
when nothing matched it issues no patch, otherwise it patches with that
filtered sequence and the fetched version token. -/
theorem claim_C2_remove_filters_in_order (fetched : List Destination)
    (v : String) (d : Destination) :
    (removeLoop fetched d).1 = fetched.filter (fun e => !destinationsEqual e d) ∧
    List.Sublist (removeLoop fetched d).1 fetched ∧
    removeDestinationStep fetched v d =
      (if fetched.any (fun e => destinationsEqual e d) then
        some (fetched.filter (fun e => !destinationsEqual e d), v)
      else none) := by
  have hr := removeLoop_eq_filter_any fetched d
  refine ⟨by rw [hr], ?_, ?_⟩
  · rw [hr]
    exact List.filter_sublist fetched
  · simp only [removeDestinationStep, hr]

theorem claim_C2_witness :
    (removeLoop [dB, dA] dA).1 =
      [dB, dA].filter (fun e => !destinationsEqual e dA) ∧
    List.Sublist (removeLoop [dB, dA] dA).1 [dB, dA] ∧
    removeDestinationStep [dB, dA] "v1" dA =
      (if [dB, dA].any (fun e => destinationsEqual e dA) then
        some ([dB, dA].filter (fun e => !destinationsEqual e dA), "v1")
      else none) :=
  claim_C2_remove_filters_in_order [dB, dA] "v1" dA

/-- C3: when the destination matches no fetched element, `AddDestination`
calls `ConditionalPatch` with exactly the fetched list with the destination
appended at the end, and with the version token of the immediately preceding
fetch, and returns that patch call's result. -/
theorem claim_C3_add_appends_with_fetched_version (fetched : List Destination)
    (v : String) (d : Destination)
    (h : ∀ e ∈ fetched, destinationsEqual e d = false) :
    addDestinationStep fetched v d = some (fetched ++ [d], v) ∧
    (∀ patch, addDestinationGo (.ok (fetched, v)) d patch =
      patch (fetched ++ [d]) v) := by
  have hp : destinationPresent fetched d = false := by
    rw [destinationPresent, List.any_eq_false]
    intro e he
    simp [h e he]
  constructor
  · simp [addDestinationStep, hp]
  · intro patch
    simp [addDestinationGo, addDestinationStep, hp]

theorem claim_C3_witness :
    (∀ e ∈ [dA], destinationsEqual e dB = false) ∧
    (addDestinationStep [dA] "v1" dB = some ([dA, dB], "v1") ∧
     (∀ patch, addDestinationGo (.ok ([dA], "v1")) dB patch =
       patch [dA, dB] "v1")) :=
  ⟨by decide,
   claim_C3_add_appends_with_fetched_version [dA] "v1" dB (by decide)⟩

/-- C4 counterexample: a `destinations` field that is present but malformed
(a string instead of a list) makes `extractDestinations` — and hence Fetch,
which propagates it — return a fatal parse error, not an empty sequence. -/
theorem claim_C4_counterexample :
    extractDestinations
        [("spec", JValue.obj [("destinations", JValue.str "oops")])] =
      .error "failed to get destinations" ∧
    extractDestinations [("spec", JValue.str "oops")] =
      .error "failed to get spec" :=
  ⟨rfl, rfl⟩

/-- C4 (amended): a missing record-level spec container or a missing
destinations field yields the empty destination sequence without error, and
a well-typed (list-shaped) destinations field never produces a fatal parse
error; but a spec or destinations field present with the wrong type is
returned as a parse error. -/
theorem claim_C4_amended_missing_is_empty (o spec : List (String × JValue)) :
    (lookupKey o "spec" = none → extractDestinations o = .ok (some [])) ∧
    (lookupKey o "spec" = some (JValue.obj spec) →
      lookupKey spec "destinations" = none →
      extractDestinations o = .ok (some [])) ∧
    (∀ raw, lookupKey o "spec" = some (JValue.obj spec) →
      lookupKey spec "destinations" = some (JValue.arr raw) →
      extractDestinations o = .ok (extractLoop none raw)) := by
  refine ⟨?_, ?_, ?_⟩
  · intro h
    simp [extractDestinations, nestedMap, h]
  · intro h1 h2
    simp [extractDestinations, nestedMap, nestedSlice, h1, h2]
  · intro raw h1 h2
    simp [extractDestinations, nestedMap, nestedSlice, h1, h2]

theorem claim_C4_amended_witness :
    extractDestinations [] = .ok (some []) ∧
    extractDestinations [("spec", JValue.obj [])] = .ok (some []) ∧
    extractDestinations [("spec", JValue.obj [("destinations", JValue.arr [])])] =
      .ok (extractLoop none []) :=
  ⟨(claim_C4_amended_missing_is_empty [] []).1 rfl,
   (claim_C4_amended_missing_is_empty [("spec", JValue.obj [])] []).2.1 rfl rfl,
   (claim_C4_amended_missing_is_empty
       [("spec", JValue.obj [("destinations", JValue.arr [])])]
       [("destinations", JValue.arr [])]).2.2 [] rfl rfl⟩

/-- C5: the conditional patch issued by Add/Remove asserts exactly the
expected version token (the store rejects any other current token and
applies the merge patch on a match), overwrites `spec.destinations`
wholesale with the serialized new slice regardless of the old field value,
and leaves every other field — at top level, inside `spec`, and inside
`metadata` — unchanged. -/
theorem claim_C5_patch_asserts_and_frames (r : JValue) (s : GoSlice Destination)
    (rv cur : String) :
    patchAssertedVersion (patchValue s rv) = some rv ∧
    (cur ≠ rv → conditionalUpdate cur r (patchValue s rv) = none) ∧
    conditionalUpdate rv r (patchValue s rv) =
      some (mergePatch r (patchValue s rv)) ∧
    lookup2 (mergePatch r (patchValue s rv)) "spec" "destinations" =
      (match s with
       | some l => some (JValue.arr (l.map destToJson))
       | none => none) ∧
    (∀ k, k ≠ "metadata" → k ≠ "spec" →
      lookupKey (objFields (mergePatch r (patchValue s rv))) k =
        lookupKey (objFields r) k) ∧
    (∀ k, k ≠ "destinations" →
      lookup2 (mergePatch r (patchValue s rv)) "spec" k =
        lookupKey (objFields ((lookupKey (objFields r) "spec").getD JValue.null)) k) ∧
    (∀ k, k ≠ "resourceVersion" →
      lookup2 (mergePatch r (patchValue s rv)) "metadata" k =
        lookupKey (objFields ((lookupKey (objFields r) "metadata").getD JValue.null)) k) := by
  refine ⟨patchValue_asserts_version s rv, ?_, ?_,
    patched_destinations r s rv,
    fun k hm hs => patched_frame_top r s rv k hm hs,
    fun k hk => patched_frame_spec r s rv k hk,
    fun k hk => patched_frame_metadata r s rv k hk⟩
  · intro hne
    simp [conditionalUpdate, patchValue_asserts_version, Ne.symm hne]
  · simp [conditionalUpdate, patchValue_asserts_version]

theorem claim_C5_witness :
    conditionalUpdate "v2" rSample (patchValue (some [dB]) "v1") = none ∧
    lookupKey (objFields (mergePatch rSample (patchValue (some [dB]) "v1")))
        "status" = lookupKey (objFields rSample) "status" ∧
    lookup2 (mergePatch rSample (patchValue (some [dB]) "v1")) "spec"
        "sourceRepos" =
      lookupKey (objFields ((lookupKey (objFields rSample) "spec").getD JValue.null))
        "sourceRepos" ∧
    lookup2 (mergePatch rSample (patchValue (some [dB]) "v1")) "metadata"
        "name" =
      lookupKey (objFields ((lookupKey (objFields rSample) "metadata").getD JValue.null))
        "name" :=
  ⟨(claim_C5_patch_asserts_and_frames rSample (some [dB]) "v1" "v2").2.1
     (by decide),
   (claim_C5_patch_asserts_and_frames rSample (some [dB]) "v1" "v2").2.2.2.2.1
     "status" (by decide) (by decide),
   (claim_C5_patch_asserts_and_frames rSample (some [dB]) "v1" "v2").2.2.2.2.2.1
     "sourceRepos" (by decide),
   (claim_C5_patch_asserts_and_frames rSample (some [dB]) "v1" "v2").2.2.2.2.2.2
     "name" (by decide)⟩

/-- C6: the extraction loop yields exactly one destination per well-formed
(object) element of the raw destinations list, in order, and nothing for the
malformed elements, which are skipped. -/
theorem claim_C6_malformed_elements_skipped (raw : List JValue) :
    goElems (extractLoop none raw) = raw.filterMap objDest ∧
    (goElems (extractLoop none raw)).length =
      raw.countP (fun vj => (objDest vj).isSome) := by
  have h : goElems (extractLoop none raw) = raw.filterMap objDest := by
    rw [extractLoop_eq_filterMap raw none]
    rfl
  refine ⟨h, ?_⟩
  rw [h]
  clear h
  induction raw with
  | nil => rfl
  | cons vj rest ih =>
    rw [List.filterMap_cons, List.countP_cons]
    cases hv : objDest vj <;> simp [hv, ih]

theorem claim_C6_witness :
    goElems (extractLoop none [JValue.str "junk", JValue.obj []]) =
      [JValue.str "junk", JValue.obj []].filterMap objDest ∧
    (goElems (extractLoop none [JValue.str "junk", JValue.obj []])).length =
      [JValue.str "junk", JValue.obj []].countP
        (fun vj => (objDest vj).isSome) :=
  claim_C6_malformed_elements_skipped [JValue.str "junk", JValue.obj []]

/-- C7 counterexample: with the store accepting the patch, Add returns the
very same value (nil) on a state where it committed a write (empty fetched
list) and on a state where it was an already-present no-op, so the returned
value alone does not determine whether a write was committed. -/
theorem claim_C7_counterexample :
    addDestinationGo (.ok ([dA], "v1")) dA (fun _ _ => none) =
      addDestinationGo (.ok ([], "v1")) dA (fun _ _ => none) ∧
    addDestinationStep [dA] "v1" dA = none ∧
    addDestinationStep ([] : List Destination) "v1" dA =
      some ([dA], "v1") := by
  refine ⟨rfl, ?_, ?_⟩ <;> decide

/-- C7 (amended): the core's Add and Remove return only an error value: nil
is returned both when a write was committed and when the call was an
idempotent no-op (AlreadyPresent/NotPresent), so the caller cannot tell the
two apart from the returned value alone; only the error outcomes are
distinguishable, as the propagated error values. -/
theorem claim_C7_amended_success_conflated (fetched : List Destination)
    (v : String) (d : Destination) (e : K8sErr) :
    addDestinationGo (.ok (fetched, v)) d (fun _ _ => none) = none ∧
    removeDestinationGo (.ok (fetched, v)) d (fun _ _ => none) = none ∧
    addDestinationGo (.error e) d (fun _ _ => none) = some e ∧
    removeDestinationGo (.error e) d (fun _ _ => none) = some e := by
  refine ⟨?_, ?_, rfl, rfl⟩
  · cases h : addDestinationStep fetched v d with
    | none => simp [addDestinationGo, h]
    | some p => simp [addDestinationGo, h]
  · cases h : removeDestinationStep fetched v d with
    | none => simp [removeDestinationGo, h]
    | some p => simp [removeDestinationGo, h]

theorem claim_C7_amended_witness :
    addDestinationGo (.ok ([dA], "v1")) dB (fun _ _ => none) = none ∧
    removeDestinationGo (.ok ([dA], "v1")) dB (fun _ _ => none) = none ∧
    addDestinationGo (.error .conflict) dB (fun _ _ => none) =
      some .conflict ∧
    removeDestinationGo (.error .conflict) dB (fun _ _ => none) =
      some .conflict :=
  claim_C7_amended_success_conflated [dA] "v1" dB .conflict

/-- C8 counterexample: adding an already-present destination performs no
patch (the outcome is the AlreadyPresent no-op, not Committed), yet the
handler emits an audit record, because it audits on every nil error. -/
theorem claim_C8_counterexample :
    addDestinationStep [dA] "v1" dA = none ∧
    (handlerAddAfterCore "proj" reqA "ua" "addr"
        (addDestinationGo (.ok ([dA], "v1")) dA (fun _ _ => none))).2 =
      some ⟨"add", "proj", "a", "ns1", "", "adding cluster a", "ua", "addr"⟩ := by
  decide

/-- C8 (amended): the handler emits exactly one audit record — carrying the
action, record name, destination fields and the caller-supplied
justification — after every core call that returns success (nil), which
includes the idempotent AlreadyPresent/NotPresent no-ops, and emits none
when the core returns an error. -/
theorem claim_C8_amended_audit_on_success (project : String)
    (req : DestinationRequest) (ua ra : String) (res : Option K8sErr) :
    ((handlerAddAfterCore project req ua ra res).2 ≠ none ↔ res = none) ∧
    (handlerAddAfterCore project req ua ra res).2 =
      (match res with
       | none => some ⟨"add", project, req.server, req.«namespace», req.name,
           req.description, ua, ra⟩
       | some _ => none) ∧
    (handlerRemoveAfterCore project req ua ra res).2 =
      (match res with
       | none => some ⟨"remove", project, req.server, req.«namespace», req.name,
           req.description, ua, ra⟩
       | some _ => none) := by
  cases res <;> simp [handlerAddAfterCore, handlerRemoveAfterCore]

theorem claim_C8_amended_witness :
    ((handlerAddAfterCore "proj" reqA "ua" "ra" none).2 ≠ none ↔
      (none : Option K8sErr) = none) ∧
    (handlerAddAfterCore "proj" reqA "ua" "ra" none).2 =
      (match (none : Option K8sErr) with
       | none => some ⟨"add", "proj", reqA.server, reqA.«namespace», reqA.name,
           reqA.description, "ua", "ra"⟩
       | some _ => none) ∧
    (handlerRemoveAfterCore "proj" reqA "ua" "ra" none).2 =
      (match (none : Option K8sErr) with
       | none => some ⟨"remove", "proj", reqA.server, reqA.«namespace», reqA.name,
           reqA.description, "ua", "ra"⟩
       | some _ => none) :=
  claim_C8_amended_audit_on_success "proj" reqA "ua" "ra" none

/-- C9 counterexample: a caller-initiated cancellation error reaching the
handler is mapped to the same outcome (HTTP 500) as a transient store
failure — the code surfaces no Cancelled outcome distinct from
TransientError. -/
theorem claim_C9_counterexample :
    handleK8sErrorStatus .cancelled = handleK8sErrorStatus .transient ∧
    handleK8sErrorStatus .cancelled = 500 ∧
    (handlerAddAfterCore "p" reqA "ua" "ra" (some .cancelled)).1 =
      (handlerAddAfterCore "p" reqA "ua" "ra" (some .transient)).1 := by
  decide

/-- C9 (amended): cancellation of the caller-supplied context propagates as
an ordinary error with no distinct Cancelled classification anywhere in the
code: the boundary distinguishes only NotFound (404), Forbidden (403) and
Conflict (409), and a cancellation error falls into the same generic branch
— and the same 500 response — as TransientError. -/
theorem claim_C9_amended_cancelled_not_distinct (e : K8sErr) :
    handleK8sErrorStatus e =
      (match e with
       | .notFound => 404
       | .forbidden => 403
       | _ => 500) ∧
    handleK8sErrorStatus .cancelled = handleK8sErrorStatus .transient := by
  cases e <;> simp [handleK8sErrorStatus, isNotFound, isForbidden]

theorem claim_C9_amended_witness :
    handleK8sErrorStatus .cancelled =
      (match K8sErr.cancelled with
       | .notFound => 404
       | .forbidden => 403
       | _ => 500) ∧
    handleK8sErrorStatus .cancelled = handleK8sErrorStatus .transient :=
  claim_C9_amended_cancelled_not_distinct .cancelled

/-- C10: every project summary produced by `ListProjects` carries a non-nil
destinations slice whose length is exactly `DestinationCount`; an item with
no extractable destinations (extraction error or nil result) yields the
empty slice and count zero. -/
theorem claim_C10_count_matches_destinations (items : List RawItem)
    (p : Project) (hp : p ∈ listProjects items) :
    p.destinations ≠ none ∧
    p.destinationCount = (goElems p.destinations).length ∧
    (∀ item, (∀ msg, extractDestinations item.object = .error msg →
        (projectOfItem item).destinations = some [] ∧
        (projectOfItem item).destinationCount = 0) ∧
      (extractDestinations item.object = .ok none →
        (projectOfItem item).destinations = some [] ∧
        (projectOfItem item).destinationCount = 0)) := by
  obtain ⟨item, _hitem, hpi⟩ := List.mem_map.mp hp
  refine ⟨?_, ?_, ?_⟩
  · rw [← hpi]
    unfold projectOfItem
    cases hx : extractDestinations item.object with
    | error msg => simp
    | ok s => cases s <;> simp
  · rw [← hpi]
    unfold projectOfItem
    cases hx : extractDestinations item.object with
    | error msg => simp
    | ok s => cases s <;> simp
  · intro it
    constructor
    · intro msg hx
      unfold projectOfItem
      rw [hx]
      simp [goElems]
    · intro hx
      unfold projectOfItem
      rw [hx]
      simp [goElems]

theorem claim_C10_witness :
    (projectOfItem itemBad).destinations ≠ none ∧
    (projectOfItem itemBad).destinationCount =
      (goElems (projectOfItem itemBad).destinations).length ∧
    (∀ item, (∀ msg, extractDestinations item.object = .error msg →
        (projectOfItem item).destinations = some [] ∧
        (projectOfItem item).destinationCount = 0) ∧
      (extractDestinations item.object = .ok none →
        (projectOfItem item).destinations = some [] ∧
        (projectOfItem item).destinationCount = 0)) :=
  claim_C10_count_matches_destinations [itemBad] (projectOfItem itemBad)
    (List.mem_singleton.mpr rfl)

end ArgoCD
